import Mathlib

/-!
Shallow embedding of the Cooperative Node Trust Simulator (src/app.py).

The module-level mutable dictionaries `roles`, `trust_scores`, `energy`,
`packets_sent`, `packets_received`, `packets_dropped` become the fields of a
`Sim` record (total functions on node ids).  The process-wide `random`
generator is made explicit: every primitive draw the script performs is a
parameter (a rational in the draw's range for `random.random()` and
`random.uniform`, a natural index for `random.choice`).  Rationals stand for
Python floats, with exact arithmetic.
-/

namespace CNTSim

/-- Behavioral role of a node, assigned once at initialization
(`random.choice(["Honest", "Selfish", "Malicious"])`). -/
inductive Role where
  | Honest
  | Selfish
  | Malicious
deriving DecidableEq, Repr

/-- The module-level per-node state dictionaries of app.py, as total maps. -/
structure Sim where
  roles : ℕ → Role
  trust_scores : ℕ → ℚ
  energy : ℕ → ℚ
  packets_sent : ℕ → ℕ
  packets_received : ℕ → ℕ
  packets_dropped : ℕ → ℕ

/-- The topology `G`: node list and (undirected, stored as ordered pairs
`(i, j)` with `i < j`) edge list, as produced by `nx.erdos_renyi_graph`. -/
structure Graph where
  nodes : List ℕ
  edges : List (ℕ × ℕ)

/-- `list(G.neighbors(v))`: nodes adjacent to `v` in either direction. -/
def neighbors (g : Graph) (v : ℕ) : List ℕ :=
  g.nodes.filter (fun u => g.edges.contains (v, u) || g.edges.contains (u, v))

/-- All unordered candidate edges `(i, j)` with `i < j`, as
`itertools.combinations(range(n), 2)` enumerates them. -/
def allPairs (n : ℕ) : List (ℕ × ℕ) :=
  (List.range n).flatMap (fun i => ((List.range n).filter (fun j => i < j)).map (fun j => (i, j)))

/-- `nx.erdos_renyi_graph(n, p)` (line 22): nodes `0..n-1`; each candidate
pair is an edge iff its uniform `[0,1)` draw `ed i j` satisfies `draw < p`. -/
def erdosRenyi (n : ℕ) (p : ℚ) (ed : ℕ → ℕ → ℚ) : Graph :=
  { nodes := List.range n
    edges := (allPairs n).filter (fun e => decide (ed e.1 e.2 < p)) }

/-- The three-element list passed to `random.choice` at line 31. -/
def roleList : List Role := [Role.Honest, Role.Selfish, Role.Malicious]

/-- The initialization loop (lines 30-36): each node gets a uniformly drawn
role (`rd n` is the drawn index), trust 1.0, energy 100.0, zero counters. -/
def initStore (_g : Graph) (rd : ℕ → ℕ) : Sim :=
  { roles := fun n => roleList.getD (rd n % 3) Role.Honest
    trust_scores := fun _ => 1
    energy := fun _ => 100
    packets_sent := fun _ => 0
    packets_received := fun _ => 0
    packets_dropped := fun _ => 0 }

/-- `update_trust_energy(sender, success)` (lines 40-45); `u` is the
`random.uniform(0.5, 2.0)` draw of line 45. -/
def update_trust_energy (s : Sim) (sender : ℕ) (success : Bool) (u : ℚ) : Sim :=
  let s1 :=
    if success then
      { s with trust_scores :=
          Function.update s.trust_scores sender (min 1 (s.trust_scores sender + 0.05)) }
    else
      { s with trust_scores :=
          Function.update s.trust_scores sender (max 0 (s.trust_scores sender - 0.1)) }
  { s1 with energy := Function.update s1.energy sender (max 0 (s1.energy sender - u)) }

/-- The behavior branch of `simulate_step` (lines 55-60): Honest always
succeeds; Selfish succeeds iff `random.random() > 0.4`; Malicious iff
`random.random() > 0.8`. -/
def attempt (behavior : Role) (r : ℚ) : Bool :=
  match behavior with
  | Role.Honest => true
  | Role.Selfish => decide ((0.4 : ℚ) < r)
  | Role.Malicious => decide ((0.8 : ℚ) < r)

/-- The raw random draws one call of `simulate_step` may consume:
the `random.choice` index over `G.nodes`, the `random.choice` index over the
neighbor list, the behavior draw `random.random()`, and the energy draw
`random.uniform(0.5, 2.0)`. -/
structure StepDraws where
  senderIdx : ℕ
  receiverIdx : ℕ
  behaviorDraw : ℚ
  energyDraw : ℚ

/-- The sender chosen at line 48 (`random.choice(list(G.nodes))`):
the drawn index taken modulo the node count). -/
def stepSender (g : Graph) (d : StepDraws) : ℕ :=
  g.nodes.getD (d.senderIdx % g.nodes.length) 0

/-- The receiver chosen at line 52 (`random.choice(neighbors)`). -/
def stepReceiver (g : Graph) (d : StepDraws) : ℕ :=
  let nbrs := neighbors g (stepSender g d)
  nbrs.getD (d.receiverIdx % nbrs.length) 0

/-- `simulate_step()` (lines 47-69): returns the optional
`(sender, receiver, success)` outcome together with the updated state. -/
def simulate_step (g : Graph) (s : Sim) (d : StepDraws) :
    Option (ℕ × ℕ × Bool) × Sim :=
  let sender := stepSender g d
  let nbrs := neighbors g sender
  if nbrs = [] then (none, s)
  else
    let receiver := stepReceiver g d
    let success := attempt (s.roles sender) d.behaviorDraw
    let s1 := { s with packets_sent :=
        Function.update s.packets_sent sender (s.packets_sent sender + 1) }
    let s2 :=
      if success then
        { s1 with packets_received :=
            Function.update s1.packets_received receiver (s1.packets_received receiver + 1) }
      else
        { s1 with packets_dropped :=
            Function.update s1.packets_dropped sender (s1.packets_dropped sender + 1) }
    (some (sender, receiver, success), update_trust_energy s2 sender success d.energyDraw)

/-- The run loop (lines 126-130): perform one `simulate_step` per element of
the draw stream, collecting the optional outcomes. -/
def runSteps (g : Graph) (s : Sim) : List StepDraws → List (Option (ℕ × ℕ × Bool)) × Sim
  | [] => ([], s)
  | d :: ds =>
    let r := simulate_step g s d
    let rest := runSteps g r.2 ds
    (r.1 :: rest.1, rest.2)

/-- The node state after running a list of step draws. -/
def stateAfter (g : Graph) (s : Sim) (ds : List StepDraws) : Sim :=
  (runSteps g s ds).2

/-- The suspicious-node classifier
(`[n for n, t in trust_scores.items() if t < 0.4]`, lines 112 and 167);
iteration order of the dict is node-creation order. -/
def suspicious (g : Graph) (s : Sim) : List ℕ :=
  g.nodes.filter (fun n => decide (s.trust_scores n < 0.4))

/-- Construction of a simulation (lines 17-36): build the topology, then the
initialized store.  No code path of the script (nor of
`nx.erdos_renyi_graph`, which returns an empty graph for `n = 0` or `p ≤ 0`
and a complete graph for `p ≥ 1`) raises for any integer `node_count` or any
`edge_probability`, so the construction always returns `Except.ok`. -/
def constructSim (n : ℕ) (p : ℚ) (ed : ℕ → ℕ → ℚ) (rd : ℕ → ℕ) :
    Except String (Graph × Sim) :=
  let g := erdosRenyi n p ed
  Except.ok (g, initStore g rd)

/-! ### Basic helper lemmas -/

lemma getD_mod_mem {l : List ℕ} (h : l ≠ []) (i d : ℕ) : l.getD (i % l.length) d ∈ l := by
  have hl : 0 < l.length := List.length_pos.mpr h
  have hm : i % l.length < l.length := Nat.mod_lt _ hl
  rw [List.getD_eq_getElem?_getD, List.getElem?_eq_getElem hm]
  exact List.getElem_mem hm

lemma neighbors_subset {g : Graph} {v u : ℕ} (h : u ∈ neighbors g v) : u ∈ g.nodes :=
  (List.mem_filter.mp h).1

lemma nodes_ne_nil_of_neighbors_ne_nil {g : Graph} {v : ℕ} (h : neighbors g v ≠ []) :
    g.nodes ≠ [] := by
  intro hn
  exact h (by simp [neighbors, hn])

lemma stepSender_mem {g : Graph} (d : StepDraws) (h : g.nodes ≠ []) :
    stepSender g d ∈ g.nodes := getD_mod_mem h _ _

lemma stepReceiver_mem {g : Graph} {d : StepDraws}
    (h : neighbors g (stepSender g d) ≠ []) :
    stepReceiver g d ∈ neighbors g (stepSender g d) := getD_mod_mem h _ _

lemma mem_erdosRenyi_edges_lt {n : ℕ} {p : ℚ} {ed : ℕ → ℕ → ℚ} {e : ℕ × ℕ}
    (h : e ∈ (erdosRenyi n p ed).edges) : e.1 < e.2 := by
  have h1 : e ∈ allPairs n := (List.mem_filter.mp h).1
  simp only [allPairs, List.mem_flatMap, List.mem_map, List.mem_filter,
    List.mem_range, decide_eq_true_eq] at h1
  obtain ⟨i, _, j, ⟨_, hij⟩, rfl⟩ := h1
  exact hij

lemma self_not_mem_neighbors (n : ℕ) (p : ℚ) (ed : ℕ → ℕ → ℚ) (v : ℕ) :
    v ∉ neighbors (erdosRenyi n p ed) v := by
  intro h
  have h2 := (List.mem_filter.mp h).2
  simp only [List.contains, Bool.or_self, List.elem_iff] at h2
  exact lt_irrefl v (mem_erdosRenyi_edges_lt (e := (v, v)) h2)

/-! ### Characterization of the updater and one step -/

lemma update_trust_energy_eq (s : Sim) (sender : ℕ) (success : Bool) (u : ℚ) :
    update_trust_energy s sender success u =
      { s with
        trust_scores := Function.update s.trust_scores sender
          (if success then min 1 (s.trust_scores sender + 0.05)
           else max 0 (s.trust_scores sender - 0.1))
        energy := Function.update s.energy sender (max 0 (s.energy sender - u)) } := by
  unfold update_trust_energy
  cases success <;> simp

lemma simulate_step_noop {g : Graph} (s : Sim) {d : StepDraws}
    (hn : neighbors g (stepSender g d) = []) :
    simulate_step g s d = (none, s) := by
  simp [simulate_step, hn]

/-- The fully evaluated form of a completed step. -/
lemma simulate_step_eq {g : Graph} (s : Sim) {d : StepDraws}
    (hn : neighbors g (stepSender g d) ≠ []) :
    simulate_step g s d =
      (some (stepSender g d, stepReceiver g d,
             attempt (s.roles (stepSender g d)) d.behaviorDraw),
       { roles := s.roles
         trust_scores := Function.update s.trust_scores (stepSender g d)
           (if attempt (s.roles (stepSender g d)) d.behaviorDraw then
              min 1 (s.trust_scores (stepSender g d) + 0.05)
            else max 0 (s.trust_scores (stepSender g d) - 0.1))
         energy := Function.update s.energy (stepSender g d)
           (max 0 (s.energy (stepSender g d) - d.energyDraw))
         packets_sent := Function.update s.packets_sent (stepSender g d)
           (s.packets_sent (stepSender g d) + 1)
         packets_received :=
           if attempt (s.roles (stepSender g d)) d.behaviorDraw then
             Function.update s.packets_received (stepReceiver g d)
               (s.packets_received (stepReceiver g d) + 1)
           else s.packets_received
         packets_dropped :=
           if attempt (s.roles (stepSender g d)) d.behaviorDraw then s.packets_dropped
           else Function.update s.packets_dropped (stepSender g d)
             (s.packets_dropped (stepSender g d) + 1) }) := by
  simp only [simulate_step, if_neg hn]
  rcases hb : attempt (s.roles (stepSender g d)) d.behaviorDraw with _ | _ <;>
    simp [hb, update_trust_energy_eq]

/-! ### Packet totals (the `sum(....values())` aggregates of lines 115-119 and 164-166) -/

def totalSent (g : Graph) (s : Sim) : ℕ := (g.nodes.map s.packets_sent).sum

def totalReceived (g : Graph) (s : Sim) : ℕ := (g.nodes.map s.packets_received).sum

def totalDropped (g : Graph) (s : Sim) : ℕ := (g.nodes.map s.packets_dropped).sum

lemma sum_map_update_add (l : List ℕ) (f : ℕ → ℕ) (x : ℕ) (hx : x ∈ l) (hl : l.Nodup) :
    (l.map (Function.update f x (f x + 1))).sum = (l.map f).sum + 1 := by
  induction l with
  | nil => cases hx
  | cons a t ih =>
    rw [List.nodup_cons] at hl
    rcases List.mem_cons.mp hx with hxa | hxt
    · have hyne : ∀ y ∈ t, y ≠ x := by
        intro y hy h
        rw [h, hxa] at hy
        exact hl.1 hy
      have ht : t.map (Function.update f x (f x + 1)) = t.map f :=
        List.map_congr_left fun y hy => Function.update_noteq (hyne y hy) _ _
      have hhead : Function.update f x (f x + 1) a = f x + 1 := by
        rw [← hxa]
        exact Function.update_same _ _ _
      rw [List.map_cons, List.map_cons, List.sum_cons, List.sum_cons, ht, hhead, ← hxa]
      omega
    · have ha : Function.update f x (f x + 1) a = f a :=
        Function.update_noteq (fun h => hl.1 (by rw [h]; exact hxt)) _ _
      rw [List.map_cons, List.map_cons, List.sum_cons, List.sum_cons, ha, ih hxt hl.2]
      omega

lemma step_conservation {g : Graph} (hg : g.nodes.Nodup) (s : Sim) (d : StepDraws)
    (h : totalReceived g s + totalDropped g s = totalSent g s) :
    totalReceived g (simulate_step g s d).2 + totalDropped g (simulate_step g s d).2
      = totalSent g (simulate_step g s d).2 := by
  by_cases hn : neighbors g (stepSender g d) = []
  · rw [simulate_step_noop s hn]; exact h
  · have hsm : stepSender g d ∈ g.nodes :=
      stepSender_mem d (nodes_ne_nil_of_neighbors_ne_nil hn)
    have hrm : stepReceiver g d ∈ g.nodes := neighbors_subset (stepReceiver_mem hn)
    rw [simulate_step_eq s hn]
    unfold totalSent totalReceived totalDropped at h ⊢
    rcases hb : attempt (s.roles (stepSender g d)) d.behaviorDraw with _ | _ <;>
      simp only [hb, Bool.false_eq_true, if_false, if_true] <;>
      rw [sum_map_update_add _ _ _ hsm hg] <;>
      [rw [sum_map_update_add _ _ _ hsm hg]; rw [sum_map_update_add _ _ _ hrm hg]] <;>
      omega

/-! ### Range invariants and monotonicity -/

/-- The per-node range invariant: trust in [0, 1], energy in [0, 100]. -/
def RangeInv (s : Sim) : Prop :=
  ∀ m, 0 ≤ s.trust_scores m ∧ s.trust_scores m ≤ 1 ∧
    0 ≤ s.energy m ∧ s.energy m ≤ 100

/-- Between two points of a run: energy never grows, counters never shrink. -/
def RunMono (s s' : Sim) : Prop :=
  ∀ m, s'.energy m ≤ s.energy m ∧ s.packets_sent m ≤ s'.packets_sent m ∧
    s.packets_received m ≤ s'.packets_received m ∧
    s.packets_dropped m ≤ s'.packets_dropped m

lemma runMono_refl (s : Sim) : RunMono s s :=
  fun _ => ⟨le_refl _, le_refl _, le_refl _, le_refl _⟩

lemma runMono_trans {s1 s2 s3 : Sim} (h1 : RunMono s1 s2) (h2 : RunMono s2 s3) :
    RunMono s1 s3 := fun m =>
  ⟨le_trans (h2 m).1 (h1 m).1, le_trans (h1 m).2.1 (h2 m).2.1,
   le_trans (h1 m).2.2.1 (h2 m).2.2.1, le_trans (h1 m).2.2.2 (h2 m).2.2.2⟩

lemma step_range_mono {g : Graph} {s : Sim} {d : StepDraws} (hs : RangeInv s)
    (hu : (0.5 : ℚ) ≤ d.energyDraw) :
    RangeInv (simulate_step g s d).2 ∧ RunMono s (simulate_step g s d).2 := by
  by_cases hn : neighbors g (stepSender g d) = []
  · rw [simulate_step_noop s hn]; exact ⟨hs, runMono_refl s⟩
  · rw [simulate_step_eq s hn]
    constructor
    · intro m
      obtain ⟨ht0, ht1, he0, he1⟩ := hs m
      by_cases hm : m = stepSender g d
      · subst hm
        simp only [Function.update_same]
        refine ⟨?_, ?_, ?_, ?_⟩
        · split
          · exact le_min (by norm_num) (by linarith)
          · exact le_max_left _ _
        · split
          · exact min_le_left _ _
          · exact max_le (by norm_num) (by linarith)
        · exact le_max_left _ _
        · exact max_le (by norm_num) (by linarith)
      · simp only [Function.update_noteq hm]
        exact ⟨ht0, ht1, he0, he1⟩
    · intro m
      obtain ⟨ht0, ht1, he0, he1⟩ := hs m
      refine ⟨?_, ?_, ?_, ?_⟩
      · by_cases hm : m = stepSender g d
        · subst hm
          simp only [Function.update_same]
          exact max_le he0 (by linarith)
        · simp only [Function.update_noteq hm]; exact le_refl _
      · by_cases hm : m = stepSender g d
        · subst hm; simp only [Function.update_same]; omega
        · simp only [Function.update_noteq hm]; exact le_refl _
      · split
        · by_cases hm : m = stepReceiver g d
          · subst hm; simp only [Function.update_same]; omega
          · simp only [Function.update_noteq hm]; exact le_refl _
        · exact le_refl _
      · split
        · exact le_refl _
        · by_cases hm : m = stepSender g d
          · subst hm; simp only [Function.update_same]; omega
          · simp only [Function.update_noteq hm]; exact le_refl _

/-! ### Lemmas about whole runs -/

lemma stateAfter_nil (g : Graph) (s : Sim) : stateAfter g s [] = s := rfl

lemma stateAfter_cons (g : Graph) (s : Sim) (d : StepDraws) (ds : List StepDraws) :
    stateAfter g s (d :: ds) = stateAfter g (simulate_step g s d).2 ds := rfl

lemma stateAfter_append (g : Graph) (s : Sim) (l1 l2 : List StepDraws) :
    stateAfter g s (l1 ++ l2) = stateAfter g (stateAfter g s l1) l2 := by
  induction l1 generalizing s with
  | nil => rfl
  | cons d t ih => rw [List.cons_append, stateAfter_cons, stateAfter_cons, ih]

lemma run_range_mono (g : Graph) (ds : List StepDraws) :
    ∀ s : Sim, RangeInv s → (∀ d ∈ ds, (0.5 : ℚ) ≤ d.energyDraw) →
      RangeInv (stateAfter g s ds) ∧ RunMono s (stateAfter g s ds) := by
  induction ds with
  | nil => intro s hs _; exact ⟨hs, runMono_refl s⟩
  | cons d t ih =>
    intro s hs hu
    have h1 := step_range_mono (g := g) (d := d) hs (hu d (List.mem_cons_self d t))
    have h2 := ih (simulate_step g s d).2 h1.1 (fun d' hd' => hu d' (List.mem_cons_of_mem d hd'))
    rw [stateAfter_cons]
    exact ⟨h2.1, runMono_trans h1.2 h2.2⟩

lemma run_conservation {g : Graph} (hg : g.nodes.Nodup) (ds : List StepDraws) :
    ∀ s : Sim, totalReceived g s + totalDropped g s = totalSent g s →
      totalReceived g (stateAfter g s ds) + totalDropped g (stateAfter g s ds)
        = totalSent g (stateAfter g s ds) := by
  induction ds with
  | nil => intro s h; exact h
  | cons d t ih =>
    intro s h
    rw [stateAfter_cons]
    exact ih _ (step_conservation hg s d h)

lemma initStore_range (g : Graph) (rd : ℕ → ℕ) : RangeInv (initStore g rd) := by
  intro m
  refine ⟨?_, ?_, ?_, ?_⟩ <;> norm_num [initStore]

/-! ### Concrete instances used by the example parts and witnesses -/

/-- A hand-constructed four-node topology (path 0-1-2). -/
def g4 : Graph := { nodes := [0, 1, 2, 3], edges := [(0, 1), (1, 2)] }

/-- A hand-constructed store with trust `{0: 0.9, 1: 0.3, 2: 0.39, 3: 0.4}`,
the spec's classifier test vector. -/
def s4 : Sim :=
  { roles := fun _ => Role.Honest
    trust_scores := fun n => [(0.9 : ℚ), 0.3, 0.39, 0.4].getD n 0
    energy := fun _ => 100
    packets_sent := fun _ => 0
    packets_received := fun _ => 0
    packets_dropped := fun _ => 0 }

/-- A concrete draw record with energy draw 1 (inside [0.5, 2]). -/
def dA : StepDraws := ⟨0, 0, 0, 1⟩

/-- A second concrete draw record (sender index 1, behavior draw 0.5). -/
def dB : StepDraws := ⟨1, 0, 0.5, 1⟩

/-- A constant role-draw stream. -/
def rd0 : ℕ → ℕ := fun _ => 0

/-! ### The claims -/

/-- What `update_trust_energy(sender, success)` does: trust of the sender is
clamped-incremented by 0.05 on success and clamped-decremented by 0.1 on
failure; energy of the sender drops by the uniform draw `u`, clamped at 0;
every other attribute of every node is unchanged. -/
def UpdaterSpec (s : Sim) (sender : ℕ) (success : Bool) (u : ℚ) : Prop :=
  (update_trust_energy s sender success u).trust_scores sender =
      (if success then min 1 (s.trust_scores sender + 0.05)
       else max 0 (s.trust_scores sender - 0.1)) ∧
  (update_trust_energy s sender success u).energy sender = max 0 (s.energy sender - u) ∧
  (update_trust_energy s sender success u).roles = s.roles ∧
  (update_trust_energy s sender success u).packets_sent = s.packets_sent ∧
  (update_trust_energy s sender success u).packets_received = s.packets_received ∧
  (update_trust_energy s sender success u).packets_dropped = s.packets_dropped ∧
  ∀ m, m ≠ sender →
    (update_trust_energy s sender success u).trust_scores m = s.trust_scores m ∧
    (update_trust_energy s sender success u).energy m = s.energy m

/-- C1: for every node `sender`, the Trust & Energy Updater applied with
outcome success sets `trust[sender]` to `min(1.0, trust[sender] + 0.05)`;
with outcome failure to `max(0.0, trust[sender] - 0.10)`; in both cases it
sets `energy[sender]` to `max(0.0, energy[sender] - u)` for the uniform
[0.5, 2.0] draw `u`; no other attribute of any node changes. -/
theorem C1_update_trust_energy (s : Sim) (sender : ℕ) (success : Bool) (u : ℚ)
    (hu1 : (0.5 : ℚ) ≤ u) (hu2 : u ≤ 2) : UpdaterSpec s sender success u := by
  unfold UpdaterSpec
  rw [update_trust_energy_eq]
  refine ⟨by simp, by simp, rfl, rfl, rfl, rfl, fun m hm => ⟨?_, ?_⟩⟩ <;>
    simp [Function.update_noteq hm]

/-- Witness for C1 at a concrete input. -/
theorem C1_update_trust_energy_witness :
    ((0.5 : ℚ) ≤ 1 ∧ (1 : ℚ) ≤ 2) ∧ UpdaterSpec s4 0 true 1 :=
  ⟨⟨by norm_num, by norm_num⟩,
   C1_update_trust_energy s4 0 true 1 (by norm_num) (by norm_num)⟩

/-- C2: at every point of a run (after initialization, i.e. `ds1 = []`, and
after every step, completed or no-op), trust lies in [0, 1] and energy in
[0, 100] (`RangeInv`); counters are non-negative; and across any further
steps energy is non-increasing while the three counters are non-decreasing
(`RunMono`). -/
theorem C2_range_invariants (g : Graph) (rd : ℕ → ℕ) (ds1 ds2 : List StepDraws)
    (hu : ∀ d ∈ ds1 ++ ds2, (0.5 : ℚ) ≤ d.energyDraw) :
    RangeInv (stateAfter g (initStore g rd) ds1) ∧
    (∀ m, 0 ≤ (stateAfter g (initStore g rd) ds1).packets_sent m ∧
          0 ≤ (stateAfter g (initStore g rd) ds1).packets_received m ∧
          0 ≤ (stateAfter g (initStore g rd) ds1).packets_dropped m) ∧
    RunMono (stateAfter g (initStore g rd) ds1)
      (stateAfter g (initStore g rd) (ds1 ++ ds2)) := by
  have hu1 : ∀ d ∈ ds1, (0.5 : ℚ) ≤ d.energyDraw :=
    fun d hd => hu d (List.mem_append_left _ hd)
  have hu2 : ∀ d ∈ ds2, (0.5 : ℚ) ≤ d.energyDraw :=
    fun d hd => hu d (List.mem_append_right _ hd)
  have h1 := run_range_mono g ds1 (initStore g rd) (initStore_range g rd) hu1
  have h2 := run_range_mono g ds2 _ h1.1 hu2
  refine ⟨h1.1, fun m => ⟨Nat.zero_le _, Nat.zero_le _, Nat.zero_le _⟩, ?_⟩
  rw [stateAfter_append]
  exact h2.2

/-- Witness for C2 at a concrete run of two steps. -/
theorem C2_range_invariants_witness :
    (∀ d ∈ ([dA] ++ [dB] : List StepDraws), (0.5 : ℚ) ≤ d.energyDraw) ∧
    (RangeInv (stateAfter g4 (initStore g4 rd0) [dA]) ∧
     (∀ m, 0 ≤ (stateAfter g4 (initStore g4 rd0) [dA]).packets_sent m ∧
           0 ≤ (stateAfter g4 (initStore g4 rd0) [dA]).packets_received m ∧
           0 ≤ (stateAfter g4 (initStore g4 rd0) [dA]).packets_dropped m) ∧
     RunMono (stateAfter g4 (initStore g4 rd0) [dA])
       (stateAfter g4 (initStore g4 rd0) ([dA] ++ [dB]))) := by
  have hw : ∀ d ∈ ([dA] ++ [dB] : List StepDraws), (0.5 : ℚ) ≤ d.energyDraw := by
    intro d hd
    rcases List.mem_append.mp hd with h | h <;>
      · rw [List.mem_singleton] at h
        subst h
        norm_num [dA, dB]
  exact ⟨hw, C2_range_invariants g4 rd0 [dA] [dB] hw⟩

/-- C3: after any number of steps (completed or no-op) from the initial
store on an Erdős–Rényi topology, the total packets received plus the total
packets dropped equals the total packets sent. -/
theorem C3_packet_conservation (n : ℕ) (p : ℚ) (ed : ℕ → ℕ → ℚ) (rd : ℕ → ℕ)
    (ds : List StepDraws) :
    totalReceived (erdosRenyi n p ed)
        (stateAfter (erdosRenyi n p ed) (initStore (erdosRenyi n p ed) rd) ds)
      + totalDropped (erdosRenyi n p ed)
        (stateAfter (erdosRenyi n p ed) (initStore (erdosRenyi n p ed) rd) ds)
      = totalSent (erdosRenyi n p ed)
        (stateAfter (erdosRenyi n p ed) (initStore (erdosRenyi n p ed) rd) ds) := by
  apply run_conservation (List.nodup_range n) ds
  simp [totalSent, totalReceived, totalDropped, initStore]

/-- C4: the classifier returns exactly the nodes whose current trust is
strictly below the fixed threshold 0.4 (it reads the store, never writes
it — it is a pure function of the store here); on the hand-constructed
store with trust `{0: 0.9, 1: 0.3, 2: 0.39, 3: 0.4}` it returns `[1, 2]`:
trust exactly 0.4 is not suspicious. -/
theorem C4_suspicious_classifier :
    (∀ (g : Graph) (s : Sim) (m : ℕ),
        m ∈ suspicious g s ↔ m ∈ g.nodes ∧ s.trust_scores m < 0.4) ∧
    suspicious g4 s4 = [1, 2] := by
  constructor
  · intro g s m
    simp [suspicious, List.mem_filter]
  · norm_num [suspicious, g4, s4, List.filter]

/-- C5: the behavior policy returns success for every draw when the sender
is Honest; for a Selfish sender exactly when the uniform [0,1) draw exceeds
0.4 (an event of measure 0.6); for a Malicious sender exactly when the draw
exceeds 0.8 (measure 0.2). -/
theorem C5_behavior_policy :
    (∀ r : ℚ, attempt Role.Honest r = true) ∧
    (∀ r : ℚ, attempt Role.Selfish r = true ↔ (0.4 : ℚ) < r) ∧
    (∀ r : ℚ, attempt Role.Malicious r = true ↔ (0.8 : ℚ) < r) ∧
    MeasureTheory.volume {x : ℝ | 0 ≤ x ∧ x < 1 ∧ (0.4 : ℝ) < x} = ENNReal.ofReal 0.6 ∧
    MeasureTheory.volume {x : ℝ | 0 ≤ x ∧ x < 1 ∧ (0.8 : ℝ) < x} = ENNReal.ofReal 0.2 := by
  refine ⟨fun r => rfl, fun r => by simp [attempt], fun r => by simp [attempt], ?_, ?_⟩
  · have hset : {x : ℝ | 0 ≤ x ∧ x < 1 ∧ (0.4 : ℝ) < x} = Set.Ioo (0.4 : ℝ) 1 := by
      ext x
      constructor
      · intro h
        exact ⟨h.2.2, h.2.1⟩
      · intro h
        exact ⟨by linarith [h.1], h.2, h.1⟩
    rw [hset, Real.volume_Ioo]
    norm_num
  · have hset : {x : ℝ | 0 ≤ x ∧ x < 1 ∧ (0.8 : ℝ) < x} = Set.Ioo (0.8 : ℝ) 1 := by
      ext x
      constructor
      · intro h
        exact ⟨h.2.2, h.2.1⟩
      · intro h
        exact ⟨by linarith [h.1], h.2, h.1⟩
    rw [hset, Real.volume_Ioo]
    norm_num

/-- What one completed step guarantees: the returned triple, the counter
increments (packets_sent of the sender always; exactly one of the
receiver's packets_received / the sender's packets_dropped, depending on
success), and the trust/energy update applied to the sender. -/
def StepSpec (g : Graph) (s : Sim) (d : StepDraws) : Prop :=
  (simulate_step g s d).1 =
      some (stepSender g d, stepReceiver g d,
            attempt (s.roles (stepSender g d)) d.behaviorDraw) ∧
  (simulate_step g s d).2.packets_sent (stepSender g d)
      = s.packets_sent (stepSender g d) + 1 ∧
  (attempt (s.roles (stepSender g d)) d.behaviorDraw = true →
    (simulate_step g s d).2.packets_received (stepReceiver g d)
        = s.packets_received (stepReceiver g d) + 1 ∧
    (simulate_step g s d).2.packets_dropped = s.packets_dropped) ∧
  (attempt (s.roles (stepSender g d)) d.behaviorDraw = false →
    (simulate_step g s d).2.packets_dropped (stepSender g d)
        = s.packets_dropped (stepSender g d) + 1 ∧
    (simulate_step g s d).2.packets_received = s.packets_received) ∧
  (simulate_step g s d).2.trust_scores (stepSender g d) =
      (if attempt (s.roles (stepSender g d)) d.behaviorDraw then
         min 1 (s.trust_scores (stepSender g d) + 0.05)
       else max 0 (s.trust_scores (stepSender g d) - 0.1)) ∧
  (simulate_step g s d).2.energy (stepSender g d)
      = max 0 (s.energy (stepSender g d) - d.energyDraw)

/-- C6: every completed step (the drawn sender has at least one neighbor)
increments the sender's packets_sent by exactly 1, increments exactly one of
the receiver's packets_received (on success) or the sender's packets_dropped
(on failure) by exactly 1, applies the Trust & Energy Updater to the sender,
and returns the triple (sender, receiver, success). -/
theorem C6_completed_step (g : Graph) (s : Sim) (d : StepDraws)
    (hn : neighbors g (stepSender g d) ≠ []) : StepSpec g s d := by
  unfold StepSpec
  rw [simulate_step_eq s hn]
  rcases hb : attempt (s.roles (stepSender g d)) d.behaviorDraw with _ | _ <;>
    simp [hb, Function.update_same]

/-- Witness for C6: a concrete completed step on the path topology. -/
theorem C6_completed_step_witness :
    (neighbors g4 (stepSender g4 dB) ≠ []) ∧ StepSpec g4 s4 dB :=
  ⟨by decide, C6_completed_step g4 s4 dB (by decide)⟩

/-- C7: a step whose drawn sender has no neighbors returns no outcome and
leaves the whole store untouched; with edge probability 0 (and genuine
[0,1) edge draws) the generated topology has no edges, so every step of
every run is such a no-op: the outcome log is all `none` and the store is
returned unchanged. -/
theorem C7_no_neighbor_noop (n : ℕ) (ed : ℕ → ℕ → ℚ) (hd : ∀ i j, 0 ≤ ed i j) :
    (∀ (g : Graph) (s : Sim) (d : StepDraws),
        neighbors g (stepSender g d) = [] → simulate_step g s d = (none, s)) ∧
    (∀ v, neighbors (erdosRenyi n 0 ed) v = []) ∧
    (∀ (s : Sim) (ds : List StepDraws),
        runSteps (erdosRenyi n 0 ed) s ds = (ds.map (fun _ => none), s)) := by
  have hedges : (erdosRenyi n 0 ed).edges = [] := by
    apply List.filter_eq_nil_iff.mpr
    intro e _
    simp only [decide_eq_true_eq, not_lt]
    exact hd e.1 e.2
  have hnb : ∀ v, neighbors (erdosRenyi n 0 ed) v = [] := by
    intro v
    simp [neighbors, hedges]
  refine ⟨fun g s d hn => simulate_step_noop s hn, hnb, ?_⟩
  intro s ds
  induction ds with
  | nil => rfl
  | cons d t ih =>
    show (let r := simulate_step (erdosRenyi n 0 ed) s d;
          let rest := runSteps (erdosRenyi n 0 ed) r.2 t;
          (r.1 :: rest.1, rest.2)) = _
    rw [simulate_step_noop s (hnb _)]
    simp [ih]

/-- Witness for C7 with the all-zero edge-draw stream. -/
theorem C7_no_neighbor_noop_witness :
    (∀ i j : ℕ, (0 : ℚ) ≤ (fun _ _ => (0 : ℚ)) i j) ∧
    ((∀ (g : Graph) (s : Sim) (d : StepDraws),
        neighbors g (stepSender g d) = [] → simulate_step g s d = (none, s)) ∧
     (∀ v, neighbors (erdosRenyi 4 0 (fun _ _ => (0 : ℚ))) v = []) ∧
     (∀ (s : Sim) (ds : List StepDraws),
        runSteps (erdosRenyi 4 0 (fun _ _ => (0 : ℚ))) s ds
          = (ds.map (fun _ => none), s))) :=
  ⟨fun _ _ => le_refl 0, C7_no_neighbor_noop 4 (fun _ _ => 0) (fun _ _ => le_refl 0)⟩

/-- The whole scripted run as a function of the configuration and of the
seed-determined draw streams: topology generation (line 22), store
initialization (lines 30-36), then one `simulate_step` per loop iteration
(lines 126-130). -/
def fullRun (n : ℕ) (p : ℚ) (ed : ℕ → ℕ → ℚ) (rd : ℕ → ℕ) (ds : List StepDraws) :
    List (Option (ℕ × ℕ × Bool)) × Sim :=
  runSteps (erdosRenyi n p ed) (initStore (erdosRenyi n p ed) rd) ds

/-- C8: two runs with identical node_count, edge_probability, step budget and
random draws (as produced by an identically seeded generator) yield the same
outcome sequence and the same final store, every attribute included. -/
theorem C8_determinism (n1 n2 : ℕ) (p1 p2 : ℚ) (ed1 ed2 : ℕ → ℕ → ℚ)
    (rd1 rd2 : ℕ → ℕ) (ds1 ds2 : List StepDraws)
    (hn : n1 = n2) (hp : p1 = p2) (hed : ed1 = ed2) (hrd : rd1 = rd2)
    (hds : ds1 = ds2) :
    fullRun n1 p1 ed1 rd1 ds1 = fullRun n2 p2 ed2 rd2 ds2 := by
  subst hn hp hed hrd hds
  rfl

/-- Witness for C8 at one concrete configuration. -/
theorem C8_determinism_witness :
    ((2 : ℕ) = 2 ∧ (2/5 : ℚ) = 2/5) ∧
    fullRun 2 (2/5) (fun _ _ => 0) rd0 [dA] = fullRun 2 (2/5) (fun _ _ => 0) rd0 [dA] :=
  ⟨⟨rfl, rfl⟩, C8_determinism 2 2 (2/5) (2/5) (fun _ _ => 0) (fun _ _ => 0)
    rd0 rd0 [dA] [dA] rfl rfl rfl rfl rfl⟩

/-- C9 counterexample: at node_count 0 (i.e. `< 1`) construction does not
fail — it returns the empty topology with its initialized store, and it is
not an `InvalidParameter` (or any) error. -/
theorem C9_counterexample :
    (∃ v, constructSim 0 (2/5 : ℚ) (fun _ _ => 0) rd0 = Except.ok v) ∧
    ∀ e : String, constructSim 0 (2/5 : ℚ) (fun _ _ => 0) rd0 ≠ Except.error e :=
  ⟨⟨_, rfl⟩, fun e h => by simp [constructSim] at h⟩

/-- C9 (amended): construction never fails, whatever the node count or edge
probability: the script performs no parameter validation (the slider already
confines node_count to [5, 20] and edge_probability is the constant 0.4),
and `nx.erdos_renyi_graph` absorbs every value without raising. -/
theorem C9_construction_never_fails (n : ℕ) (p : ℚ) (ed : ℕ → ℕ → ℚ)
    (rd : ℕ → ℕ) : ∃ v, constructSim n p ed rd = Except.ok v :=
  ⟨_, rfl⟩

/-- The frame of one completed step: sender and receiver are distinct nodes;
no role changes; the sender's packets_received, the receiver's trust,
energy, packets_sent and packets_dropped, and every attribute of every
third node are unchanged. -/
def FrameSpec (g : Graph) (s : Sim) (d : StepDraws) : Prop :=
  stepSender g d ≠ stepReceiver g d ∧
  (simulate_step g s d).2.roles = s.roles ∧
  (simulate_step g s d).2.packets_received (stepSender g d)
      = s.packets_received (stepSender g d) ∧
  (simulate_step g s d).2.trust_scores (stepReceiver g d)
      = s.trust_scores (stepReceiver g d) ∧
  (simulate_step g s d).2.energy (stepReceiver g d) = s.energy (stepReceiver g d) ∧
  (simulate_step g s d).2.packets_sent (stepReceiver g d)
      = s.packets_sent (stepReceiver g d) ∧
  (simulate_step g s d).2.packets_dropped (stepReceiver g d)
      = s.packets_dropped (stepReceiver g d) ∧
  ∀ m, m ≠ stepSender g d → m ≠ stepReceiver g d →
    (simulate_step g s d).2.trust_scores m = s.trust_scores m ∧
    (simulate_step g s d).2.energy m = s.energy m ∧
    (simulate_step g s d).2.packets_sent m = s.packets_sent m ∧
    (simulate_step g s d).2.packets_received m = s.packets_received m ∧
    (simulate_step g s d).2.packets_dropped m = s.packets_dropped m

/-- C10: on the generated (simple, loop-free) topology, a completed step may
change only the sender's trust, energy, packets_sent and packets_dropped and
the receiver's packets_received; everything else — all roles, the sender's
packets_received, the receiver's other attributes, and every attribute of
every other node — is unchanged (the topology itself is immutable by
construction: `simulate_step` only reads it). -/
theorem C10_frame (n : ℕ) (p : ℚ) (ed : ℕ → ℕ → ℚ) (s : Sim) (d : StepDraws)
    (hn : neighbors (erdosRenyi n p ed) (stepSender (erdosRenyi n p ed) d) ≠ []) :
    FrameSpec (erdosRenyi n p ed) s d := by
  have hne : stepSender (erdosRenyi n p ed) d ≠ stepReceiver (erdosRenyi n p ed) d := by
    intro h
    exact self_not_mem_neighbors n p ed _ (h ▸ stepReceiver_mem hn)
  have hne' : stepReceiver (erdosRenyi n p ed) d ≠ stepSender (erdosRenyi n p ed) d :=
    fun h => hne h.symm
  unfold FrameSpec
  rw [simulate_step_eq s hn]
  refine ⟨hne, rfl, ?_, ?_, ?_, ?_, ?_, ?_⟩
  · split
    · exact Function.update_noteq hne _ _
    · rfl
  · exact Function.update_noteq hne' _ _
  · exact Function.update_noteq hne' _ _
  · exact Function.update_noteq hne' _ _
  · split
    · rfl
    · exact Function.update_noteq hne' _ _
  · intro m hms hmr
    refine ⟨Function.update_noteq hms _ _, Function.update_noteq hms _ _,
      Function.update_noteq hms _ _, ?_, ?_⟩
    · split
      · exact Function.update_noteq hmr _ _
      · rfl
    · split
      · rfl
      · exact Function.update_noteq hms _ _

/-- Witness for C10: a concrete completed step on a generated topology. -/
theorem C10_frame_witness :
    (neighbors (erdosRenyi 3 1 (fun _ _ => 0))
        (stepSender (erdosRenyi 3 1 (fun _ _ => 0)) dB) ≠ []) ∧
    FrameSpec (erdosRenyi 3 1 (fun _ _ => 0)) s4 dB := by
  have h : neighbors (erdosRenyi 3 1 (fun _ _ => 0))
      (stepSender (erdosRenyi 3 1 (fun _ _ => 0)) dB) ≠ [] := by
    norm_num [neighbors, erdosRenyi, allPairs, stepSender, dB, List.range_succ,
      List.filter, List.flatMap, List.contains]
    exact List.cons_ne_nil 0 [2]
  exact ⟨h, C10_frame 3 1 (fun _ _ => 0) s4 dB h⟩

end CNTSim
